import Mathlib

/-!
Verification development for the AI orchestration core of the promptforge
repository. The TypeScript source is shallowly embedded: pure string
processing becomes functions on `List Char` and `String`, the stateful
components (feed poller, chat widget, schema audit view) become explicit
state-passing functions, and every remote call is a parameter of the
embedding (an `Except`-valued outcome or an oracle function), since the
remote model is an external collaborator.

Conventions used throughout:
these definitions translate the JavaScript semantics of the source, so
string truthiness (empty string and `undefined` are falsy) is modelled by
`Option String` together with `jsOrStr` and `jsTruthyOpt`, and the
JavaScript `indexOf` and `lastIndexOf` functions, which return `-1` on a
miss, are modelled as `Int`-valued functions.
-/

/-! ## JavaScript string primitives -/

/-- Whitespace recognized by the JavaScript `String.prototype.trim` on the
character range relevant here (ASCII whitespace plus no-break space and
BOM). -/
def isJsWs (c : Char) : Bool :=
  c == ' ' || c == '\t' || c == '\n' || c == '\r' || c == '\x0b' || c == '\x0c' ||
    c == ' ' || c == '﻿'

/-- Model of `text.replace(/﻿```json\n?|```/g, "")` from
`src/services/geminiService.ts` (`cleanJsonResponse`): scan left to right;
at each position the alternation first tries the tag form with an optional
trailing newline, then a bare fence; a match is deleted and scanning
resumes after it. -/
def stripFences : List Char → List Char
  | '`' :: '`' :: '`' :: 'j' :: 's' :: 'o' :: 'n' :: '\n' :: rest => stripFences rest
  | '`' :: '`' :: '`' :: 'j' :: 's' :: 'o' :: 'n' :: rest => stripFences rest
  | '`' :: '`' :: '`' :: rest => stripFences rest
  | c :: rest => c :: stripFences rest
  | [] => []

/-- Decides whether a character list contains three consecutive backticks,
the shape every fence marker starts with. -/
def containsTriple : List Char → Bool
  | '`' :: '`' :: '`' :: _ => true
  | _ :: rest => containsTriple rest
  | [] => false

/-- Model of `String.prototype.trim`: drop whitespace from both ends. -/
def trimList (l : List Char) : List Char :=
  List.rdropWhile isJsWs (l.dropWhile isJsWs)

/-- Model of `String.prototype.trim` on strings. -/
def jsTrim (s : String) : String :=
  String.mk (trimList s.toList)

/-- Model of the JavaScript `indexOf` for a single character: index of the
first occurrence, `-1` when absent. -/
def indexOfChar (c : Char) : List Char → Int
  | [] => -1
  | x :: xs =>
    if x = c then 0
    else if indexOfChar c xs = -1 then -1 else indexOfChar c xs + 1

/-- Model of the JavaScript `lastIndexOf` for a single character: index of
the last occurrence, `-1` when absent. -/
def lastIndexOfChar (c : Char) : List Char → Int
  | [] => -1
  | x :: xs =>
    if lastIndexOfChar c xs = -1 then (if x = c then 0 else -1)
    else lastIndexOfChar c xs + 1

/-- Model of `s.substring(a, b)` for `a ≤ b`: the characters of positions
`a` inclusive to `b` exclusive. -/
def jsSubstring (l : List Char) (a b : Nat) : List Char :=
  (l.take b).drop a

/-- Model of JavaScript `a || b` for an optional string `a`: `b` when `a`
is `undefined` or empty, `a` otherwise. -/
def jsOrStr (a : Option String) (b : String) : String :=
  match a with
  | none => b
  | some s => if s = "" then b else s

/-- Truthiness of an optional JavaScript string. -/
def jsTruthyOpt (o : Option String) : Bool :=
  match o with
  | none => false
  | some s => s != ""

/-- Model of `s.includes(pat)`. -/
def jsIncludes (s pat : String) : Bool :=
  decide (pat.toList <:+: s.toList)

/-- Model of `s.toUpperCase()` on the ASCII range, written on the
character list so that it evaluates by kernel reduction. -/
def jsToUpper (s : String) : String :=
  String.mk (s.toList.map Char.toUpper)

/-! ## ResponseSanitizer (`cleanJsonResponse` in `src/services/geminiService.ts`) -/

/-- Brace extraction step of `cleanJsonResponse`: locate the first opening
brace and the last closing brace with `indexOf` and `lastIndexOf`; when
both exist and the closing brace is strictly later, return the inclusive
substring between them, else nothing. -/
def extractBraces (cleaned : List Char) : Option (List Char) :=
  let startBrace := indexOfChar '{' cleaned
  let endBrace := lastIndexOfChar '}' cleaned
  if startBrace ≠ -1 ∧ endBrace ≠ -1 ∧ startBrace < endBrace then
    some (jsSubstring cleaned startBrace.toNat (endBrace.toNat + 1))
  else none

/-- Body of `cleanJsonResponse` on a nonempty string, as a function on
character lists: strip fences, trim, then either the brace substring or
the cleaned text unchanged. -/
def cleanList (l : List Char) : List Char :=
  match extractBraces (trimList (stripFences l)) with
  | some piece => piece
  | none => trimList (stripFences l)

/-- The sanitizer `cleanJsonResponse` of `src/services/geminiService.ts`,
lines 5 to 16. An empty input is falsy and yields the empty object
literal. -/
def cleanJsonResponse (text : String) : String :=
  if text = "" then "\x7b\x7d" else String.mk (cleanList text.toList)

/-- The sanitizer as called from JavaScript, where the argument may also be
`undefined`, which is falsy exactly like the empty string. -/
def cleanJsonResponseOpt : Option String → String
  | none => "\x7b\x7d"
  | some t => cleanJsonResponse t

/-! ## Specification-side sanitizer

The following definitions restate the algorithm in the words of the
specification (first opening brace, last closing brace, inclusive
substring); they are compared with the source embedding in the claim about
the sanitizer algorithm. -/

/-- Index of the first occurrence of a character, specification side. -/
def firstIdxOf (c : Char) : List Char → Option Nat
  | [] => none
  | x :: xs => if x = c then some 0 else (firstIdxOf c xs).map (· + 1)

/-- Index of the last occurrence of a character, specification side. -/
def lastIdxOf (c : Char) : List Char → Option Nat
  | [] => none
  | x :: xs =>
    match lastIdxOf c xs with
    | some n => some (n + 1)
    | none => if x = c then some 0 else none

/-- Sanitizer as described by the specification: empty or undefined input
yields the empty object literal; otherwise strip fence markers and trim;
if the remaining text has an opening brace with a closing brace strictly
after it, return the inclusive substring from the first opening brace to
the last closing brace, else return the stripped trimmed text unchanged. -/
def specSanitize : Option String → String
  | none => "\x7b\x7d"
  | some s =>
    if s = "" then "\x7b\x7d"
    else
      let cl := trimList (stripFences s.toList)
      match firstIdxOf '{' cl, lastIdxOf '}' cl with
      | some i, some j =>
        if i < j then String.mk ((cl.take (j + 1)).drop i) else String.mk cl
      | some _, none => String.mk cl
      | none, _ => String.mk cl

/-! ## ArtifactSynthesizer (`discoverJsonPrompts` in `src/services/geminiService.ts`)

The two remote calls and the JSON parser are the environment of the
function: each remote call either throws or returns a response value with
an optional text and optional grounding chunks, and `JSON.parse` is an
oracle from strings to parsed objects or a thrown error. A thrown
JavaScript value is modelled by its `message` string, with the empty
string standing for a falsy or absent message. -/

structure WebRef where
  title : Option String
  uri : Option String
deriving DecidableEq, Repr

structure GroundingChunk where
  web : Option WebRef
deriving DecidableEq, Repr

structure GenResponse where
  text : Option String
  groundingChunks : Option (List GroundingChunk)
deriving DecidableEq, Repr

structure JsError where
  message : String
deriving DecidableEq, Repr

/-- Runtime shape of the object produced by `JSON.parse` on the synthesis
reply: every field of the declared response schema may be absent, since
the remote model is not bound by the requested schema. -/
structure ParsedSynth where
  title : Option String
  description : Option String
  jsonPrompt : Option String
  exampleJson : Option String
  tsInterface : Option String
  jsonSchema : Option String
  promptVariations : Option (List String)
deriving DecidableEq, Repr

structure SourceRec where
  title : String
  uri : String
deriving DecidableEq, Repr

/-- Runtime shape of the returned `SearchResult` value: the spread of the
parsed object with the computed source list. -/
structure SearchResultM where
  title : Option String
  description : Option String
  jsonPrompt : Option String
  exampleJson : Option String
  tsInterface : Option String
  jsonSchema : Option String
  promptVariations : Option (List String)
  sources : List SourceRec
deriving DecidableEq, Repr

/-- Environment of one `discoverJsonPrompts` run: outcomes of the research
call, the synthesis call, and the behavior of `JSON.parse`. -/
structure SynthEnv where
  research : Except JsError GenResponse
  synthesis : Except JsError GenResponse
  parse : String → Except JsError ParsedSynth

/-- Source extraction of `src/services/geminiService.ts`, lines 51 to 57:
map each grounding chunk to a source with placeholder defaults, drop the
placeholder entries, keep at most five. -/
def extractSources (r : GenResponse) : List SourceRec :=
  (((r.groundingChunks.getD []).map
      (fun chunk =>
        { title := jsOrStr (chunk.web.bind (fun w => w.title)) "Grounded Reference"
          uri := jsOrStr (chunk.web.bind (fun w => w.uri)) "#" })).filter
    (fun s => !(s.uri == "#"))).take 5

def synthesisFallbackMsg : String :=
  "The synthesis engine encountered a logic fault. Please retry."

/-- Top level catch of `discoverJsonPrompts`: rethrow with the original
message or the generic fallback when the message is falsy. -/
def remapError (e : JsError) : JsError :=
  { message := if e.message = "" then synthesisFallbackMsg else e.message }

/-- The synthesizer `discoverJsonPrompts` of `src/services/geminiService.ts`,
lines 17 to 114. The research text feeds only the second prompt string and
is therefore not observable in the result. -/
def discoverJsonPrompts (env : SynthEnv) : Except JsError SearchResultM :=
  match env.research with
  | .error e => .error (remapError e)
  | .ok searchResponse =>
    let sources := extractSources searchResponse
    match env.synthesis with
    | .error e => .error (remapError e)
    | .ok formatResponse =>
      let rawResult := jsOrStr formatResponse.text "\x7b\x7d"
      match env.parse (cleanJsonResponse rawResult) with
      | .error e => .error (remapError e)
      | .ok parsed =>
        .ok { title := parsed.title
              description := parsed.description
              jsonPrompt := parsed.jsonPrompt
              exampleJson := parsed.exampleJson
              tsInterface := parsed.tsInterface
              jsonSchema := parsed.jsonSchema
              promptVariations := parsed.promptVariations
              sources :=
                if sources.length > 0 then sources
                else [{ title := "General Industry Documentation", uri := "#" }] }

/-- Raw synthesis text as read by `discoverJsonPrompts` from a successful
second stage, used to state which string reaches the parser. -/
def synthRawText (env : SynthEnv) : String :=
  match env.synthesis with
  | .ok formatResponse => jsOrStr formatResponse.text "\x7b\x7d"
  | .error _ => "\x7b\x7d"

/-! ## ConversationSession (`handleSend` in the chat widget source file) -/

inductive ChatRole where
  | user
  | model
deriving DecidableEq, Repr

structure ChatMessage where
  id : String
  role : ChatRole
  text : String
deriving DecidableEq, Repr

/-- Model of the stream loop body `newMessages[newMessages.length - 1].text
= fullResponse`: replace the text of the final message. -/
def updateLastText : List ChatMessage → String → List ChatMessage
  | [], _ => []
  | [m], t => [{ m with text := t }]
  | m :: m2 :: rest, t => m :: updateLastText (m2 :: rest) t

/-- Model of the `for await` loop of `handleSend`: each chunk contributes
`chunk.text || ""` to the accumulated response, which is written into the
last message after every fragment. -/
def streamFold (msgs : List ChatMessage) (fullResponse : String) :
    List (Option String) → List ChatMessage
  | [] => msgs
  | chunk :: rest =>
    streamFold (updateLastText msgs (fullResponse ++ chunk.getD ""))
      (fullResponse ++ chunk.getD "") rest

/-- Model of `handleSend` on a stream that completes without throwing:
guard on blank input or an in-flight send, append the trimmed user turn,
append an empty assistant turn, then fold the stream fragments into it.
The fragment list holds `chunk.text` of each arriving chunk in order. -/
def handleSend (msgs : List ChatMessage) (isTyping : Bool) (input : String)
    (userId assistantId : String) (chunks : List (Option String)) : List ChatMessage :=
  if jsTrim input = "" ∨ isTyping then msgs
  else
    streamFold
      ((msgs ++ [{ id := userId, role := .user, text := jsTrim input }]) ++
        [{ id := assistantId, role := .model, text := "" }]) "" chunks

/-- Concatenation of the stream fragments in arrival order, each read as
`chunk.text || ""`. -/
def concatChunks : List (Option String) → String
  | [] => ""
  | c :: rest => c.getD "" ++ concatChunks rest

/-! ## SchemaAuditor (`validateAgainstSchema` and `deriveSchemaFromExample`
in `src/components/ResultView.tsx`) -/

structure ValidationCall where
  schema : String
  json : String
deriving DecidableEq, Repr

/-- Model of `validateAgainstSchema`, lines 186 to 204 of ResultView:
choose `derivedSchema || result.jsonSchema`; when that or the example is
falsy no request is issued, otherwise the audit request carries the chosen
schema and the example. -/
def validateAgainstSchema (derivedSchema : Option String) (jsonSchema : Option String)
    (exampleJson : Option String) : Option ValidationCall :=
  let schemaToUse := if jsTruthyOpt derivedSchema then derivedSchema else jsonSchema
  if !(jsTruthyOpt schemaToUse) || !(jsTruthyOpt exampleJson) then none
  else some { schema := schemaToUse.getD "", json := exampleJson.getD "" }

/-- Model of the success path of `deriveSchemaFromExample`, lines 206 to
223 of ResultView: guarded by a truthy example, the new `derivedSchema`
state becomes `response.text?.trim()`. Returns `none` when the guard
aborts, else the stored derived schema. -/
def deriveSchemaFromExample (exampleJson : Option String) (respText : Option String) :
    Option (Option String) :=
  if !(jsTruthyOpt exampleJson) then none
  else some (respText.map jsTrim)

/-! ## FeedPoller (`StockCard` source file)

The component state is embedded as a record; `fetchMarketData` splits into
a start step (the synchronous writes before `await`) and a resolve step
(the code run when the remote reply settles), connected by a pending fetch
value that records the closure captured symbol and the `isInitial` flag.
The remote reply is either a thrown error or a response text with optional
grounding link; `JSON.parse` is again an oracle parameter. -/

/-- Runtime value of a JSON field that the code checks with `typeof`. -/
inductive JsVal where
  | num (q : ℚ)
  | other
deriving DecidableEq

def JsVal.isNumber : JsVal → Bool
  | .num _ => true
  | .other => false

structure StockDataPoint where
  date : String
  price : ℚ
deriving DecidableEq

/-- Runtime shape of the parsed market reply; `history` may be absent. -/
structure ParsedMarket where
  currentPrice : JsVal
  changePercent : JsVal
  history : Option (List StockDataPoint)
deriving DecidableEq

/-- Stored snapshot: the spread of the parsed reply plus the grounding
link. -/
structure MarketData where
  currentPrice : JsVal
  changePercent : JsVal
  history : Option (List StockDataPoint)
  sourceUrl : Option String
deriving DecidableEq

structure FeedError where
  message : String
  hint : String
deriving DecidableEq

structure PollState where
  activeSymbol : String
  data : Option MarketData
  isLoading : Bool
  isRefreshing : Bool
  error : Option FeedError
deriving DecidableEq

/-- An in-flight fetch: the symbol its closure captured and whether it was
issued as an initial fetch. -/
structure PendingFetch where
  symbol : String
  isInitial : Bool
deriving DecidableEq

/-- Synchronous prefix of `fetchMarketData`: initial fetches enter loading
state and clear the snapshot, refreshes only mark refreshing; the error is
cleared either way, and the issued fetch captures the current symbol. -/
def startFetch (st : PollState) (isInitial : Bool) : PollState × PendingFetch :=
  let st1 :=
    if isInitial then { st with isLoading := true, data := none }
    else { st with isRefreshing := true }
  ({ st1 with error := none }, { symbol := st.activeSymbol, isInitial := isInitial })

/-- Hint classification of the catch block of `fetchMarketData`. -/
def hintFor (errorMessage : String) : String :=
  if jsIncludes errorMessage "malformed" then
    "The search engine could not structure the price data correctly. Retrying might solve this."
  else if jsIncludes errorMessage "empty" then
    "No recent historical price data was found for this symbol on the web."
  else "Check your connection or verify the asset ticker symbol is correct."

/-- Catch block of `fetchMarketData`: only an initial fetch surfaces the
typed error; a refresh failure is swallowed. -/
def onFetchError (st : PollState) (f : PendingFetch) (errMessage : Option String) : PollState :=
  let errorMessage := jsOrStr errMessage "Establishing Signal failed."
  if f.isInitial then
    { st with error := some { message := errorMessage, hint := hintFor errorMessage } }
  else st

/-- Finally block of `fetchMarketData`. -/
def finalizeFetch (st : PollState) : PollState :=
  { st with isLoading := false, isRefreshing := false }

/-- Model of `text.match(/\{[\s\S]*\}/)` applied by the poller to the raw
reply: the regular expression matches from the leftmost possible start,
which is the first opening brace, and the greedy middle extends the match
to the last closing brace of the text; a match exists exactly when some
closing brace lies strictly after the first opening brace. This is the
same first brace to last brace inclusive slice the sanitizer computes. -/
def pollerExtract (l : List Char) : Option (List Char) :=
  let startBrace := indexOfChar '{' l
  let endBrace := lastIndexOfChar '}' l
  if startBrace ≠ -1 ∧ endBrace ≠ -1 ∧ startBrace < endBrace then
    some (jsSubstring l startBrace.toNat (endBrace.toNat + 1))
  else none

/-- Validation gate of `fetchMarketData`: the parsed reply is rejected when
`history` is falsy or empty or `currentPrice` is not a number. -/
def rejectedParsed (p : ParsedMarket) : Bool :=
  match p.history with
  | none => true
  | some [] => true
  | some (_ :: _) => !(p.currentPrice.isNumber)

/-- Outcome of the awaited remote call of one fetch. -/
inductive FetchReply where
  | failure (message : Option String)
  | success (text : Option String) (sourceUrl : Option String)

/-- Resolution of one fetch, following `fetchMarketData` after its `await`:
extract the brace slice from the reply text, parse it, validate it, and on
success store the snapshot unconditionally; every failure goes through the
catch block and every path through the finally block. The stored snapshot
is built only from the reply, with no comparison against the state symbol
or the fetch symbol. -/
def resolveFetch (parseJson : String → Except (Option String) ParsedMarket)
    (st : PollState) (f : PendingFetch) (reply : FetchReply) : PollState :=
  finalizeFetch
    (match reply with
     | .failure msg => onFetchError st f msg
     | .success text sourceUrl =>
       match pollerExtract (text.getD "").toList with
       | none =>
         onFetchError st f
           (some "Logic Sync Failure: The model returned a malformed response format.")
       | some m =>
         match parseJson (String.mk m) with
         | .error msg => onFetchError st f msg
         | .ok parsed =>
           if rejectedParsed parsed then
             onFetchError st f
               (some "Data Incomplete: The market feed returned an empty dataset for this asset.")
           else
             { st with
               data := some
                 { currentPrice := parsed.currentPrice
                   changePercent := parsed.changePercent
                   history := parsed.history
                   sourceUrl := sourceUrl } })

/-- Mount of the card for a symbol: the effect issues the initial fetch. -/
def mountPoller (symbol : String) : PollState × PendingFetch :=
  startFetch
    { activeSymbol := symbol, data := none, isLoading := true,
      isRefreshing := false, error := none } true

/-- One firing of the fifteen second interval: a refresh fetch. -/
def intervalTick (st : PollState) : PollState × PendingFetch :=
  startFetch st false

/-- Subject change through `handleSymbolSubmit` followed by the effect on
the new active symbol: when the trimmed input is nonempty and differs from
the current symbol up to case, the symbol is replaced by its upper case
form and an initial fetch is issued; the old timer is cleared and a new
one armed, but nothing cancels or marks an already in-flight fetch. -/
def changeSubject (st : PollState) (inputSymbol : String) : PollState × Option PendingFetch :=
  if jsTrim inputSymbol ≠ "" ∧ jsToUpper inputSymbol ≠ jsToUpper st.activeSymbol then
    let p := startFetch { st with activeSymbol := jsToUpper inputSymbol } true
    (p.1, some p.2)
  else (st, none)

/-! ## Lemmas about fence stripping -/

theorem take_two_ticks_iff (l : List Char) :
    l.take 2 = ['`', '`'] ↔ ∃ r, l = '`' :: '`' :: r := by
  match l with
  | [] => simp
  | [a] => simp
  | a :: b :: r =>
    constructor
    · intro h
      simp [List.take] at h
      exact ⟨r, by rw [h.1, h.2]⟩
    · rintro ⟨r2, hr⟩
      injection hr with h1 hr2
      injection hr2 with h2 _
      simp [List.take, h1, h2]

theorem take_three_ticks_iff (c : Char) (l : List Char) :
    (c :: l).take 3 = ['`', '`', '`'] ↔ c = '`' ∧ ∃ r, l = '`' :: '`' :: r := by
  rw [← take_two_ticks_iff]
  simp [List.take]

theorem stripFences_cons_not_fence (c : Char) (rest : List Char)
    (h : ¬ (c :: rest).take 3 = ['`', '`', '`']) :
    stripFences (c :: rest) = c :: stripFences rest := by
  have h3 : ∀ (r : List Char), c = '`' → rest = '`' :: '`' :: r → False := by
    intro r hc hr
    exact h ((take_three_ticks_iff c rest).mpr ⟨hc, r, hr⟩)
  exact stripFences.eq_4 c rest
    (fun r hc hr => h3 _ hc (by rw [hr]))
    (fun r hc hr => h3 _ hc (by rw [hr]))
    h3

theorem containsTriple_cons (c : Char) (l : List Char) :
    containsTriple (c :: l) =
      (decide ((c :: l).take 3 = ['`', '`', '`']) || containsTriple l) := by
  by_cases htake : (c :: l).take 3 = ['`', '`', '`']
  · obtain ⟨hc, r, hr⟩ := (take_three_ticks_iff c l).mp htake
    subst hc
    subst hr
    simp [containsTriple, htake]
  · have h2 : ∀ (r : List Char), c = '`' → l = '`' :: '`' :: r → False := by
      intro r hc hr
      exact htake ((take_three_ticks_iff c l).mpr ⟨hc, r, hr⟩)
    rw [containsTriple.eq_2 c l h2]
    rw [decide_eq_false htake]
    simp

theorem stripFences_of_no_triple (l : List Char) (h : containsTriple l = false) :
    stripFences l = l := by
  induction l using stripFences.induct with
  | case1 rest ih => rw [containsTriple_cons] at h; simp [List.take] at h
  | case2 rest ih => rw [containsTriple_cons] at h; simp [List.take] at h
  | case3 rest ih => rw [containsTriple_cons] at h; simp [List.take] at h
  | case4 c rest h1 h2 h3 ih =>
    rw [containsTriple_cons] at h
    simp only [Bool.or_eq_false_iff, decide_eq_false_iff_not] at h
    rw [stripFences_cons_not_fence c rest h.1, ih h.2]
  | case5 => rfl

theorem take_one_stripFences (l : List Char) (h : l.take 1 ≠ ['`']) :
    (stripFences l).take 1 ≠ ['`'] := by
  cases l with
  | nil => simp [stripFences]
  | cons c r =>
    have hc : c ≠ '`' := by
      intro hc
      exact h (by rw [hc]; rfl)
    have hf : ¬ (c :: r).take 3 = ['`', '`', '`'] := fun hf =>
      hc ((take_three_ticks_iff _ _).mp hf).1
    rw [stripFences_cons_not_fence c r hf]
    simpa [List.take] using hc

theorem take_two_stripFences (l : List Char) (h : l.take 2 ≠ ['`', '`']) :
    (stripFences l).take 2 ≠ ['`', '`'] := by
  cases l with
  | nil => simp [stripFences]
  | cons c r =>
    by_cases hc : c = '`'
    · subst hc
      have hr : r.take 1 ≠ ['`'] := by
        intro h1
        apply h
        simp [List.take, h1]
      have hf : ¬ ('`' :: r).take 3 = ['`', '`', '`'] := by
        intro hf
        obtain ⟨-, r2, hr2⟩ := (take_three_ticks_iff _ _).mp hf
        exact hr (by rw [hr2]; rfl)
      rw [stripFences_cons_not_fence _ _ hf]
      intro h2
      exact take_one_stripFences r hr (by simpa [List.take] using h2)
    · have hf : ¬ (c :: r).take 3 = ['`', '`', '`'] := fun hf =>
        hc ((take_three_ticks_iff _ _).mp hf).1
      rw [stripFences_cons_not_fence _ _ hf]
      intro h2
      simp [List.take] at h2
      exact hc h2.1

theorem containsTriple_stripFences (l : List Char) :
    containsTriple (stripFences l) = false := by
  induction l using stripFences.induct with
  | case1 rest ih => rw [stripFences.eq_1]; exact ih
  | case2 rest h ih => rw [stripFences.eq_2 rest h]; exact ih
  | case3 rest h1 h2 ih => rw [stripFences.eq_3 rest h1 h2]; exact ih
  | case4 c rest h1 h2 h3 ih =>
    have hf : ¬ (c :: rest).take 3 = ['`', '`', '`'] := by
      intro hf
      obtain ⟨hc, r, hr⟩ := (take_three_ticks_iff _ _).mp hf
      exact h3 r hc hr
    rw [stripFences_cons_not_fence c rest hf, containsTriple_cons]
    simp only [Bool.or_eq_false_iff, decide_eq_false_iff_not]
    constructor
    · intro h3t
      obtain ⟨hc, r2, hr2⟩ := (take_three_ticks_iff _ _).mp h3t
      have hrest : rest.take 2 ≠ ['`', '`'] := by
        intro ht
        obtain ⟨r3, hr3⟩ := (take_two_ticks_iff rest).mp ht
        exact h3 r3 hc hr3
      exact take_two_stripFences rest hrest (by rw [hr2]; rfl)
    · exact ih
  | case5 => simp [stripFences, containsTriple]

theorem containsTriple_iff (l : List Char) :
    containsTriple l = true ↔ ['`', '`', '`'] <:+: l := by
  induction l with
  | nil =>
    simp [containsTriple]
  | cons c r ih =>
    rw [containsTriple_cons, List.infix_cons_iff]
    simp only [Bool.or_eq_true, decide_eq_true_eq, ih]
    constructor
    · rintro (h | h)
      · exact Or.inl ( List.prefix_iff_eq_take.mpr h.symm )
      · exact Or.inr h
    · rintro (h | h)
      · exact Or.inl ( List.prefix_iff_eq_take.mp h ).symm
      · exact Or.inr h

theorem containsTriple_mono {l m : List Char} (hm : m <:+: l)
    (h : containsTriple l = false) : containsTriple m = false := by
  by_contra hc
  rw [Bool.not_eq_false, containsTriple_iff] at hc
  have : containsTriple l = true := (containsTriple_iff l).mpr (hc.trans hm)
  rw [this] at h
  simp at h

/-! ## Lemmas about trimming -/

theorem trimList_dropWhile_eq (l : List Char) :
    (trimList l).dropWhile isJsWs = trimList l := by
  cases hB : trimList l with
  | nil => simp
  | cons b bs =>
    have hpre : trimList l <+: l.dropWhile isJsWs := List.rdropWhile_prefix _ _
    obtain ⟨t, ht⟩ := hpre
    have hne : l.dropWhile isJsWs ≠ [] := by
      rw [← ht, hB]
      simp
    have hhead : isJsWs ((l.dropWhile isJsWs).head hne) = false :=
      List.head_dropWhile_not isJsWs l hne
    have hbB : (l.dropWhile isJsWs).head hne = b := by
      have : l.dropWhile isJsWs = b :: (bs ++ t) := by
        rw [← ht, hB]
        simp
      simp [this]
    rw [hbB] at hhead
    rw [List.dropWhile_cons_of_neg]
    simp [hhead]

theorem trimList_idem (l : List Char) : trimList (trimList l) = trimList l := by
  show List.rdropWhile isJsWs ((trimList l).dropWhile isJsWs) = trimList l
  rw [trimList_dropWhile_eq]
  show List.rdropWhile isJsWs (List.rdropWhile isJsWs (l.dropWhile isJsWs)) = _
  exact List.rdropWhile_idempotent _ _

theorem trimList_infix_self (l : List Char) : trimList l <:+: l :=
  List.IsInfix.trans ( List.rdropWhile_prefix _ _ ).isInfix ( List.dropWhile_suffix _ ).isInfix

theorem trimList_decomp (l : List Char) :
    ∃ w1 w2, (∀ c ∈ w1, isJsWs c = true) ∧ (∀ c ∈ w2, isJsWs c = true) ∧
      l = w1 ++ trimList l ++ w2 := by
  refine ⟨l.takeWhile isJsWs, (((l.dropWhile isJsWs).reverse).takeWhile isJsWs).reverse,
    ?_, ?_, ?_⟩
  · intro c hc
    exact List.mem_takeWhile_imp hc
  · intro c hc
    rw [List.mem_reverse] at hc
    exact List.mem_takeWhile_imp hc
  · conv_lhs => rw [← List.takeWhile_append_dropWhile isJsWs l]
    rw [List.append_assoc]
    congr 1
    conv_lhs => rw [← List.reverse_reverse (l.dropWhile isJsWs),
      ← List.takeWhile_append_dropWhile isJsWs (l.dropWhile isJsWs).reverse]
    rw [List.reverse_append]
    rfl

theorem trimList_eq_self_of_braces (l : List Char) (hh : l.head? = some '{')
    (hl : l.getLast? = some '}') : trimList l = l := by
  have hne : l ≠ [] := by
    intro h
    rw [h] at hh
    simp at hh
  have hdrop : l.dropWhile isJsWs = l := by
    cases l with
    | nil => simp
    | cons a r =>
      simp only [List.head?_cons, Option.some.injEq] at hh
      subst hh
      exact List.dropWhile_cons_of_neg (by decide)
  show List.rdropWhile isJsWs (l.dropWhile isJsWs) = l
  rw [hdrop, List.rdropWhile_eq_self_iff]
  intro hl2
  have : l.getLast hl2 = '}' := by
    rw [List.getLast?_eq_getLast l hl2] at hl
    exact Option.some.inj hl
  rw [this]
  decide

/-! ## Lemmas about index computation -/

theorem firstIdxOf_getElem (c : Char) (l : List Char) (n : Nat)
    (h : firstIdxOf c l = some n) : l[n]? = some c := by
  induction l generalizing n with
  | nil => simp [firstIdxOf] at h
  | cons x xs ih =>
    by_cases hx : x = c
    · simp [firstIdxOf, hx] at h
      subst h
      simp [hx]
    · simp [firstIdxOf, hx] at h
      obtain ⟨m, hm, hmn⟩ := h
      subst hmn
      simpa using ih m hm

theorem firstIdxOf_min (c : Char) (l : List Char) (n : Nat)
    (h : firstIdxOf c l = some n) : ∀ m < n, l[m]? ≠ some c := by
  induction l generalizing n with
  | nil => simp [firstIdxOf] at h
  | cons x xs ih =>
    by_cases hx : x = c
    · simp [firstIdxOf, hx] at h
      omega
    · simp [firstIdxOf, hx] at h
      obtain ⟨k, hk, hkn⟩ := h
      subst hkn
      intro m hm
      cases m with
      | zero =>
        simp
        exact hx
      | succ m2 =>
        simp
        exact ih k hk m2 (by omega)

theorem firstIdxOf_eq_none_iff (c : Char) (l : List Char) :
    firstIdxOf c l = none ↔ c ∉ l := by
  induction l with
  | nil => simp [firstIdxOf]
  | cons x xs ih =>
    by_cases hx : x = c
    · simp [firstIdxOf, hx]
    · simp [firstIdxOf, hx, ih]
      exact fun _ hc => hx hc.symm

theorem lastIdxOf_getElem (c : Char) (l : List Char) (n : Nat)
    (h : lastIdxOf c l = some n) : l[n]? = some c := by
  induction l generalizing n with
  | nil => simp [lastIdxOf] at h
  | cons x xs ih =>
    cases hxs : lastIdxOf c xs with
    | some m =>
      rw [lastIdxOf, hxs] at h
      injection h with h
      subst h
      simpa using ih m hxs
    | none =>
      rw [lastIdxOf, hxs] at h
      by_cases hx : x = c
      · rw [if_pos hx] at h
        injection h with h
        subst h
        simp [hx]
      · rw [if_neg hx] at h
        exact absurd h (by simp)

theorem lastIdxOf_eq_none_iff (c : Char) (l : List Char) :
    lastIdxOf c l = none ↔ c ∉ l := by
  induction l with
  | nil => simp [lastIdxOf]
  | cons x xs ih =>
    cases hxs : lastIdxOf c xs with
    | some m =>
      rw [lastIdxOf, hxs]
      have hmem := lastIdxOf_getElem c xs m hxs
      obtain ⟨hlt, heq⟩ := List.getElem?_eq_some_iff.mp hmem
      refine ⟨fun h => absurd h (by simp), fun h =>
        absurd (List.mem_cons_of_mem x (heq ▸ List.getElem_mem hlt)) h⟩
    | none =>
      rw [lastIdxOf, hxs]
      by_cases hx : x = c
      · simp [hx]
      · rw [if_neg hx]
        simp only [List.mem_cons, not_or]
        constructor
        · intro _
          exact ⟨fun hc => hx hc.symm, ih.mp hxs⟩
        · intro _
          trivial

theorem lastIdxOf_max (c : Char) (l : List Char) (n : Nat)
    (h : lastIdxOf c l = some n) : ∀ m, n < m → l[m]? ≠ some c := by
  induction l generalizing n with
  | nil => simp [lastIdxOf] at h
  | cons x xs ih =>
    cases hxs : lastIdxOf c xs with
    | some k =>
      rw [lastIdxOf, hxs] at h
      injection h with h
      subst h
      intro m hm
      cases m with
      | zero => omega
      | succ m2 =>
        simp
        exact ih k hxs m2 (by omega)
    | none =>
      rw [lastIdxOf, hxs] at h
      by_cases hx : x = c
      · rw [if_pos hx] at h
        injection h with h
        subst h
        intro m hm
        cases m with
        | zero => omega
        | succ m2 =>
          simp
          intro hmem
          obtain ⟨hlt, heq⟩ := List.getElem?_eq_some_iff.mp hmem
          exact (lastIdxOf_eq_none_iff c xs).mp hxs (heq ▸ List.getElem_mem hlt)
      · rw [if_neg hx] at h
        exact absurd h (by simp)

theorem lastIdxOf_getLast (c : Char) (l : List Char) (h : l.getLast? = some c) :
    lastIdxOf c l = some (l.length - 1) := by
  induction l with
  | nil => simp at h
  | cons x xs ih =>
    cases xs with
    | nil =>
      simp at h
      simp [lastIdxOf, h]
    | cons y ys =>
      rw [List.getLast?_cons_cons] at h
      have := ih h
      rw [lastIdxOf, this]
      simp

theorem firstIdxOf_append (c : Char) (u v : List Char) :
    firstIdxOf c (u ++ v) =
      (match firstIdxOf c u with
       | some n => some n
       | none => (firstIdxOf c v).map (· + u.length)) := by
  induction u with
  | nil =>
    simp only [List.nil_append, firstIdxOf, List.length_nil]
    cases h : firstIdxOf c v <;> simp [h]
  | cons x u2 ih =>
    by_cases hx : x = c
    · simp [firstIdxOf, hx]
    · have hcons : ∀ w : List Char, firstIdxOf c (x :: w) = (firstIdxOf c w).map (· + 1) := by
        intro w
        simp [firstIdxOf, hx]
      rw [List.cons_append, hcons, hcons, ih]
      cases h2 : firstIdxOf c u2 with
      | some n => simp
      | none =>
        cases hv : firstIdxOf c v with
        | none => simp
        | some k =>
          simp [List.length_cons]
          omega

theorem lastIdxOf_append (c : Char) (u v : List Char) :
    lastIdxOf c (u ++ v) =
      (match lastIdxOf c v with
       | some n => some (n + u.length)
       | none => lastIdxOf c u) := by
  induction u with
  | nil =>
    cases h : lastIdxOf c v <;> simp [h, lastIdxOf]
  | cons x u2 ih =>
    rw [List.cons_append, lastIdxOf, ih]
    cases hv : lastIdxOf c v with
    | some n =>
      simp [List.length_cons]
      omega
    | none =>
      cases hu : lastIdxOf c u2 with
      | some k => rw [lastIdxOf, hu]
      | none => rw [lastIdxOf, hu]

theorem indexOfChar_eq (c : Char) (l : List Char) :
    indexOfChar c l = (firstIdxOf c l).elim (-1) (fun n => (n : Int)) := by
  induction l with
  | nil => rfl
  | cons x xs ih =>
    by_cases hx : x = c
    · simp [indexOfChar, firstIdxOf, hx]
    · have hL : indexOfChar c (x :: xs) =
          if indexOfChar c xs = -1 then -1 else indexOfChar c xs + 1 := by
        simp [indexOfChar, hx]
      have hR : firstIdxOf c (x :: xs) = (firstIdxOf c xs).map (· + 1) := by
        simp [firstIdxOf, hx]
      rw [hL, hR]
      cases h : firstIdxOf c xs with
      | none =>
        rw [h] at ih
        simp [ih]
      | some n =>
        rw [h] at ih
        simp only [Option.elim] at ih
        rw [ih, if_neg (by omega)]
        show (n : Int) + 1 = ((n + 1 : Nat) : Int)
        push_cast
        ring

theorem lastIndexOfChar_eq (c : Char) (l : List Char) :
    lastIndexOfChar c l = (lastIdxOf c l).elim (-1) (fun n => (n : Int)) := by
  induction l with
  | nil => rfl
  | cons x xs ih =>
    cases h : lastIdxOf c xs with
    | none =>
      rw [h] at ih
      by_cases hx : x = c
      · simp [lastIndexOfChar, lastIdxOf, h, ih, hx]
      · simp [lastIndexOfChar, lastIdxOf, h, ih, hx]
    | some n =>
      rw [h] at ih
      simp only [lastIndexOfChar, lastIdxOf, h, ih, Option.elim]
      rw [if_neg (by omega)]
      push_cast
      ring

theorem extractBraces_eq (cl : List Char) :
    extractBraces cl =
      (match firstIdxOf '{' cl, lastIdxOf '}' cl with
       | some i, some j => if i < j then some ((cl.take (j + 1)).drop i) else none
       | some _, none => none
       | none, _ => none) := by
  unfold extractBraces jsSubstring
  rw [indexOfChar_eq, lastIndexOfChar_eq]
  cases hf : firstIdxOf '{' cl with
  | none =>
    cases hl : lastIdxOf '}' cl with
    | none => simp
    | some j => simp
  | some i =>
    cases hl : lastIdxOf '}' cl with
    | none => simp
    | some j =>
      simp only [Option.elim]
      by_cases hij : i < j
      · rw [if_pos ⟨by omega, by omega, by omega⟩, if_pos hij]
        simp [Int.toNat_natCast]
      · rw [if_neg ?side, if_neg hij]
        intro hcon
        exact hij (by exact_mod_cast hcon.2.2)

theorem extractBraces_isSome_iff (cl : List Char) (i j : Nat)
    (hf : firstIdxOf '{' cl = some i) (hl : lastIdxOf '}' cl = some j) :
    extractBraces cl = if i < j then some ((cl.take (j + 1)).drop i) else none := by
  rw [extractBraces_eq, hf, hl]

theorem extract_piece_head (cl : List Char) (i j : Nat)
    (hi : cl[i]? = some '{') (hj : cl[j]? = some '}') (hij : i < j) :
    ((cl.take (j + 1)).drop i).head? = some '{' := by
  have hjl : j < cl.length := ( List.getElem?_eq_some_iff.mp hj ).1
  rw [List.head?_eq_getElem?]
  rw [List.getElem?_drop]
  rw [List.getElem?_take_of_lt (by omega)]
  simpa using hi

theorem extract_piece_last (cl : List Char) (i j : Nat)
    (hj : cl[j]? = some '}') (hij : i < j) :
    ((cl.take (j + 1)).drop i).getLast? = some '}' := by
  have hjl : j < cl.length := ( List.getElem?_eq_some_iff.mp hj ).1
  have hlen : ((cl.take (j + 1)).drop i).length = j + 1 - i := by
    simp [List.length_take, List.length_drop]
    omega
  rw [List.getLast?_eq_getElem?, hlen]
  rw [List.getElem?_drop]
  rw [List.getElem?_take_of_lt (by omega)]
  rw [show i + (j + 1 - i - 1) = j from by omega]
  exact hj

theorem extract_piece_within (cl : List Char) (i j : Nat) (hij : i ≤ j + 1) :
    ((cl.take (j + 1)).drop i) <:+: cl := by
  refine ⟨cl.take i, cl.drop (j + 1), ?_⟩
  have h1 : cl.take i ++ (cl.take (j + 1)).drop i = cl.take (j + 1) := by
    conv_lhs => rw [show cl.take i = (cl.take (j + 1)).take i from by
      rw [List.take_take]; congr 1; omega]
    exact List.take_append_drop i (cl.take (j + 1))
  rw [h1, List.take_append_drop]

theorem extractBraces_some_inv (cl p : List Char) (h : extractBraces cl = some p) :
    ∃ i j, firstIdxOf '{' cl = some i ∧ lastIdxOf '}' cl = some j ∧ i < j ∧
      p = (cl.take (j + 1)).drop i := by
  rw [extractBraces_eq] at h
  cases hf : firstIdxOf '{' cl with
  | none =>
    rw [hf] at h
    simp at h
  | some i =>
    cases hl : lastIdxOf '}' cl with
    | none =>
      rw [hf, hl] at h
      simp at h
    | some j =>
      rw [hf, hl] at h
      dsimp only at h
      by_cases hij : i < j
      · rw [if_pos hij] at h
        exact ⟨i, j, rfl, rfl, hij, (Option.some.inj h).symm⟩
      · rw [if_neg hij] at h
        simp at h

theorem extractBraces_self (p : List Char) (hh : p.head? = some '{')
    (hl : p.getLast? = some '}') (hlen : 2 ≤ p.length) :
    extractBraces p = some p := by
  have hf : firstIdxOf '{' p = some 0 := by
    cases p with
    | nil => simp at hh
    | cons a r =>
      simp only [List.head?_cons, Option.some.injEq] at hh
      simp [firstIdxOf, hh]
  have hla : lastIdxOf '}' p = some (p.length - 1) := lastIdxOf_getLast _ _ hl
  rw [extractBraces_eq, hf, hla]
  dsimp only
  rw [if_pos (by omega)]
  rw [show p.length - 1 + 1 = p.length from by omega]
  simp

theorem containsTriple_trim_strip (l : List Char) :
    containsTriple (trimList (stripFences l)) = false :=
  containsTriple_mono (trimList_infix_self _) (containsTriple_stripFences l)

theorem cleanList_fix (l : List Char) : cleanList (cleanList l) = cleanList l := by
  have hct : containsTriple (trimList (stripFences l)) = false := containsTriple_trim_strip l
  cases hex : extractBraces (trimList (stripFences l)) with
  | some p =>
    have hcl : cleanList l = p := by
      unfold cleanList
      rw [hex]
    obtain ⟨i, j, hf, hlj, hij, hp⟩ := extractBraces_some_inv _ _ hex
    have hi := firstIdxOf_getElem _ _ _ hf
    have hj := lastIdxOf_getElem _ _ _ hlj
    have hjl : j < (trimList (stripFences l)).length := ( List.getElem?_eq_some_iff.mp hj ).1
    have hhead : p.head? = some '{' := by
      rw [hp]
      exact extract_piece_head _ i j hi hj hij
    have hlast : p.getLast? = some '}' := by
      rw [hp]
      exact extract_piece_last _ i j hj hij
    have hplen : 2 ≤ p.length := by
      rw [hp]
      simp [List.length_drop, List.length_take]
      omega
    have hpinf : p <:+: trimList (stripFences l) := by
      rw [hp]
      exact extract_piece_within _ i j (by omega)
    have hpct : containsTriple p = false := containsTriple_mono hpinf hct
    rw [hcl]
    unfold cleanList
    rw [stripFences_of_no_triple p hpct, trimList_eq_self_of_braces p hhead hlast,
      extractBraces_self p hhead hlast hplen]
  | none =>
    have hcl : cleanList l = trimList (stripFences l) := by
      unfold cleanList
      rw [hex]
    rw [hcl]
    unfold cleanList
    rw [stripFences_of_no_triple _ hct, trimList_idem, hex]

theorem not_mem_of_ws (w : List Char) (hw : ∀ c ∈ w, isJsWs c = true) (c : Char)
    (hc : isJsWs c = false) : c ∉ w := by
  intro hmem
  rw [hw c hmem] at hc
  simp at hc

theorem extractBraces_trimList (l : List Char) (p : List Char)
    (h : extractBraces l = some p) : extractBraces (trimList l) = some p := by
  obtain ⟨i, j, hf, hl, hij, hp⟩ := extractBraces_some_inv _ _ h
  obtain ⟨w1, w2, hw1, hw2, hdec⟩ := trimList_decomp l
  have hob1 : '{' ∉ w1 := not_mem_of_ws w1 hw1 '{' (by decide)
  have hob2 : '{' ∉ w2 := not_mem_of_ws w2 hw2 '{' (by decide)
  have hcb1 : '}' ∉ w1 := not_mem_of_ws w1 hw1 '}' (by decide)
  have hcb2 : '}' ∉ w2 := not_mem_of_ws w2 hw2 '}' (by decide)
  have hassoc : l = w1 ++ (trimList l ++ w2) := by
    conv_lhs => rw [hdec]
    rw [List.append_assoc]
  have hfT : ∃ iT, firstIdxOf '{' (trimList l) = some iT ∧ i = iT + w1.length := by
    have hfl : firstIdxOf '{' l =
        (firstIdxOf '{' (trimList l ++ w2)).map (· + w1.length) := by
      conv_lhs => rw [hassoc]
      rw [firstIdxOf_append, (firstIdxOf_eq_none_iff '{' w1).mpr hob1]
    cases hT : firstIdxOf '{' (trimList l) with
    | none =>
      rw [hf, firstIdxOf_append, hT, (firstIdxOf_eq_none_iff '{' w2).mpr hob2] at hfl
      simp at hfl
    | some iT =>
      rw [hf, firstIdxOf_append, hT] at hfl
      simp at hfl
      exact ⟨iT, rfl, by omega⟩
  have hlT : ∃ jT, lastIdxOf '}' (trimList l) = some jT ∧ j = jT + w1.length := by
    have hll : lastIdxOf '}' l =
        (match lastIdxOf '}' (trimList l ++ w2) with
         | some n => some (n + w1.length)
         | none => lastIdxOf '}' w1) := by
      conv_lhs => rw [hassoc]
      rw [lastIdxOf_append]
    have hlw : lastIdxOf '}' (trimList l ++ w2) = lastIdxOf '}' (trimList l) := by
      rw [lastIdxOf_append, (lastIdxOf_eq_none_iff '}' w2).mpr hcb2]
    rw [hlw] at hll
    cases hT : lastIdxOf '}' (trimList l) with
    | none =>
      rw [hl, hT, (lastIdxOf_eq_none_iff '}' w1).mpr hcb1] at hll
      exact absurd hll (by simp)
    | some jT =>
      rw [hl, hT] at hll
      dsimp only at hll
      injection hll with hll
      exact ⟨jT, rfl, by omega⟩
  obtain ⟨iT, hfT2, hieq⟩ := hfT
  obtain ⟨jT, hlT2, hjeq⟩ := hlT
  have hjlen : jT < (trimList l).length :=
    ( List.getElem?_eq_some_iff.mp (lastIdxOf_getElem _ _ _ hlT2) ).1
  have htake : l.take (j + 1) = w1 ++ (trimList l).take (jT + 1) := by
    conv_lhs => rw [hassoc]
    rw [show j + 1 = w1.length + (jT + 1) from by omega]
    rw [List.take_append]
    congr 1
    rw [List.take_append_eq_append_take]
    rw [show jT + 1 - (trimList l).length = 0 from by omega]
    simp
  have hdrop : p = ((trimList l).take (jT + 1)).drop iT := by
    rw [hp, htake]
    rw [show i = w1.length + iT from by omega]
    rw [List.drop_append]
  rw [extractBraces_eq, hfT2, hlT2]
  dsimp only
  rw [if_pos (by omega), hdrop]

/-! ## String glue lemmas -/

theorem toList_mk (cs : List Char) : (String.mk cs).toList = cs := rfl

theorem mk_eq_empty_iff (cs : List Char) : String.mk cs = "" ↔ cs = [] := by
  constructor
  · intro h
    have h2 : String.mk cs = String.mk [] := h
    injection h2
  · intro h
    rw [h]

theorem pollerExtract_eq_extractBraces (l : List Char) :
    pollerExtract l = extractBraces l := rfl

/-! ## Lemmas about the conversation stream fold -/

theorem updateLastText_append (msgs : List ChatMessage) (m : ChatMessage) (t : String) :
    updateLastText (msgs ++ [m]) t = msgs ++ [{ m with text := t }] := by
  induction msgs with
  | nil => rfl
  | cons a rest ih =>
    cases rest with
    | nil => rfl
    | cons b rest2 =>
      simp only [List.cons_append, updateLastText, List.append_eq] at ih ⊢
      rw [ih]

theorem streamFold_concat (msgs : List ChatMessage) (m : ChatMessage) (acc : String)
    (chunks : List (Option String)) (hm : m.text = acc) :
    streamFold (msgs ++ [m]) acc chunks =
      msgs ++ [{ m with text := acc ++ concatChunks chunks }] := by
  induction chunks generalizing m acc with
  | nil =>
    simp only [streamFold, concatChunks]
    rw [show acc ++ "" = acc from by simp, ← hm]
  | cons c rest ih =>
    rw [streamFold, updateLastText_append]
    rw [ih { m with text := acc ++ c.getD "" } (acc ++ c.getD "") rfl]
    simp only [concatChunks]
    rw [String.append_assoc]

/-! ## Lemmas about the feed poller state -/

theorem onFetchError_data (st : PollState) (f : PendingFetch) (m : Option String) :
    (onFetchError st f m).data = st.data := by
  unfold onFetchError
  split <;> rfl

theorem finalizeFetch_data (st : PollState) : (finalizeFetch st).data = st.data := rfl

/-! ## Claim theorems -/

/-- Claim C3: the sanitizer is a total function on strings; empty or
undefined input yields the empty object literal; otherwise, after
stripping fence markers and trimming, when the text contains an opening
brace with a closing brace strictly after it the result is the inclusive
substring from the first opening brace to the last closing brace, and
otherwise the fence stripped trimmed input unchanged. Stated as equality
between the source embedding and the specification side restatement. -/
theorem claim3_sanitize_algorithm (t : Option String) :
    cleanJsonResponseOpt t = specSanitize t := by
  cases t with
  | none => rfl
  | some s =>
    by_cases hs : s = ""
    · subst hs
      rfl
    · show cleanJsonResponse s = _
      rw [cleanJsonResponse, if_neg hs]
      simp only [specSanitize]
      rw [if_neg hs]
      unfold cleanList
      rw [extractBraces_eq]
      cases hf : firstIdxOf '{' (trimList (stripFences s.toList)) with
      | none => rfl
      | some i =>
        cases hl : lastIdxOf '}' (trimList (stripFences s.toList)) with
        | none => rfl
        | some j =>
          dsimp only
          by_cases hij : i < j
          · rw [if_pos hij, if_pos hij]
          · rw [if_neg hij, if_neg hij]

/-- Claim C10 counterexample: the sanitizer is not idempotent as claimed;
a fence only input cleans to the empty string, and a second application
turns the empty string into the empty object literal. -/
theorem claim10_counterexample :
    cleanJsonResponse (cleanJsonResponse "```") ≠ cleanJsonResponse "```" := by
  decide

/-- Claim C10 amended: the sanitizer is idempotent on every input whose
first sanitization is nonempty; equivalently, the only idempotency
failures are the nonempty inputs that clean to the empty string. -/
theorem claim10_idempotent_amended (s : String) (h : cleanJsonResponse s ≠ "") :
    cleanJsonResponse (cleanJsonResponse s) = cleanJsonResponse s := by
  by_cases hs : s = ""
  · subst hs
    decide
  · have h2 : String.mk (cleanList s.toList) ≠ "" := by
      rw [cleanJsonResponse, if_neg hs] at h
      exact h
    rw [cleanJsonResponse, if_neg h, cleanJsonResponse, if_neg hs]
    show String.mk (cleanList (cleanList s.toList)) = String.mk (cleanList s.toList)
    rw [cleanList_fix]

/-- Claim C10 witness: the amended idempotency applied to a concrete
input that sanitizes to a nonempty brace slice. -/
theorem claim10_witness :
    cleanJsonResponse (cleanJsonResponse " \x7ba\x7d ") = cleanJsonResponse " \x7ba\x7d " :=
  claim10_idempotent_amended " \x7ba\x7d " (by decide)

/-- Claim C9 counterexample: the poller does not strip fence markers
before the brace slice, so on a reply whose braces enclose a fence the
poller extracts a different string than the sanitizer produces. -/
theorem claim9_counterexample :
    pollerExtract ("\x7b```\x7d".toList) = some ("\x7b```\x7d".toList) ∧
      cleanJsonResponse "\x7b```\x7d" ≠ String.mk ("\x7b```\x7d".toList) := by
  constructor
  · decide
  · decide

/-- Claim C9 amended: on every reply free of fence markers that contains
an opening brace with a later closing brace, the slice the poller
extracts equals the sanitizer output on that reply. -/
theorem claim9_poller_matches_sanitizer (s : String) (m : List Char)
    (hfence : containsTriple s.toList = false)
    (hext : pollerExtract s.toList = some m) :
    cleanJsonResponse s = String.mk m := by
  rw [pollerExtract_eq_extractBraces] at hext
  have hs : s ≠ "" := by
    intro h
    subst h
    rw [show ("".toList : List Char) = [] from rfl,
      show extractBraces ([] : List Char) = none from rfl] at hext
    exact Option.noConfusion hext
  rw [cleanJsonResponse, if_neg hs]
  unfold cleanList
  rw [stripFences_of_no_triple _ hfence, extractBraces_trimList _ _ hext]

/-- Claim C9 witness: the amended equivalence applied to a concrete fence
free reply with surrounding prose. -/
theorem claim9_witness :
    cleanJsonResponse "ok \x7b1\x7d" = String.mk ("\x7b1\x7d".toList) :=
  claim9_poller_matches_sanitizer "ok \x7b1\x7d" ("\x7b1\x7d".toList) (by decide) (by decide)

/-- Claim C2 counterexample: a run whose synthesis stage returns an empty
text succeeds with the empty object, so the returned artifact carries no
prompt and no example at all; the code never checks their presence. The
parse oracle models `JSON.parse`, which accepts the empty object literal. -/
theorem claim2_counterexample :
    discoverJsonPrompts
      { research := .ok { text := some "research text", groundingChunks := none }
        synthesis := .ok { text := some "", groundingChunks := none }
        parse := fun str =>
          if str = "\x7b\x7d" then
            .ok { title := none, description := none, jsonPrompt := none,
                  exampleJson := none, tsInterface := none, jsonSchema := none,
                  promptVariations := none }
          else .error { message := "Unexpected end of JSON input" } } =
      .ok { title := none, description := none, jsonPrompt := none, exampleJson := none,
            tsInterface := none, jsonSchema := none, promptVariations := none,
            sources := [{ title := "General Industry Documentation", uri := "#" }] } := by
  rfl

/-- Claim C2 amended: on every successful synthesis the returned prompt
and example fields are exactly the fields of the parsed synthesis object;
they are present and nonempty precisely when the remote reply supplies
them so, since the code adds no presence or nonemptiness check. -/
theorem claim2_prompt_example_passthrough (env : SynthEnv) (res : SearchResultM)
    (h : discoverJsonPrompts env = .ok res) :
    ∃ p, env.parse (cleanJsonResponse (synthRawText env)) = .ok p ∧
      res.jsonPrompt = p.jsonPrompt ∧ res.exampleJson = p.exampleJson := by
  unfold discoverJsonPrompts at h
  cases hr : env.research with
  | error e =>
    rw [hr] at h
    exact Except.noConfusion h
  | ok sr =>
    rw [hr] at h
    dsimp only at h
    cases hsy : env.synthesis with
    | error e =>
      rw [hsy] at h
      exact Except.noConfusion h
    | ok fr =>
      rw [hsy] at h
      dsimp only at h
      cases hp : env.parse (cleanJsonResponse (jsOrStr fr.text "\x7b\x7d")) with
      | error e =>
        rw [hp] at h
        exact Except.noConfusion h
      | ok p =>
        rw [hp] at h
        dsimp only at h
        injection h with h
        subst h
        refine ⟨p, ?_, rfl, rfl⟩
        rw [show synthRawText env = jsOrStr fr.text "\x7b\x7d" from by
          unfold synthRawText
          rw [hsy]]
        exact hp

/-- Claim C2 witness: the amended passthrough applied to a run whose
parse oracle yields a populated object. -/
theorem claim2_witness :
    ∃ p, (SynthEnv.parse
        { research := .ok { text := some "r", groundingChunks := none }
          synthesis := .ok { text := some "body", groundingChunks := none }
          parse := fun _ =>
            .ok { title := some "T", description := some "D", jsonPrompt := some "P",
                  exampleJson := some "E", tsInterface := some "I",
                  jsonSchema := some "S", promptVariations := some ["v"] } })
        (cleanJsonResponse (synthRawText
        { research := .ok { text := some "r", groundingChunks := none }
          synthesis := .ok { text := some "body", groundingChunks := none }
          parse := fun _ =>
            .ok { title := some "T", description := some "D", jsonPrompt := some "P",
                  exampleJson := some "E", tsInterface := some "I",
                  jsonSchema := some "S", promptVariations := some ["v"] } })) = .ok p ∧
      (some "P" : Option String) = p.jsonPrompt ∧ (some "E" : Option String) = p.exampleJson :=
  claim2_prompt_example_passthrough
    { research := .ok { text := some "r", groundingChunks := none }
      synthesis := .ok { text := some "body", groundingChunks := none }
      parse := fun _ =>
        .ok { title := some "T", description := some "D", jsonPrompt := some "P",
              exampleJson := some "E", tsInterface := some "I",
              jsonSchema := some "S", promptVariations := some ["v"] } }
    { title := some "T", description := some "D", jsonPrompt := some "P",
      exampleJson := some "E", tsInterface := some "I", jsonSchema := some "S",
      promptVariations := some ["v"],
      sources := [{ title := "General Industry Documentation", uri := "#" }] }
    (by rfl)

/-- Claim C4: every successful synthesis returns at least one source and
at most five; when the filtered grounding citations are empty a single
generic fallback source is substituted. -/
theorem claim4_sources_nonempty_bounded (env : SynthEnv) (res : SearchResultM)
    (h : discoverJsonPrompts env = .ok res) :
    res.sources ≠ [] ∧ res.sources.length ≤ 5 := by
  unfold discoverJsonPrompts at h
  cases hr : env.research with
  | error e =>
    rw [hr] at h
    exact Except.noConfusion h
  | ok sr =>
    rw [hr] at h
    dsimp only at h
    cases hsy : env.synthesis with
    | error e =>
      rw [hsy] at h
      exact Except.noConfusion h
    | ok fr =>
      rw [hsy] at h
      dsimp only at h
      cases hp : env.parse (cleanJsonResponse (jsOrStr fr.text "\x7b\x7d")) with
      | error e =>
        rw [hp] at h
        exact Except.noConfusion h
      | ok p =>
        rw [hp] at h
        dsimp only at h
        injection h with h
        subst h
        dsimp only
        by_cases hlen : (extractSources sr).length > 0
        · rw [if_pos hlen]
          constructor
          · exact List.ne_nil_of_length_pos hlen
          · unfold extractSources
            rw [List.length_take]
            omega
        · rw [if_neg hlen]
          simp

/-- Claim C4 witness: a successful run with no usable citations returns
the single fallback source. -/
theorem claim4_witness :
    ([{ title := "General Industry Documentation", uri := "#" }] : List SourceRec) ≠ [] ∧
      ([{ title := "General Industry Documentation", uri := "#" }] : List SourceRec).length ≤ 5 :=
  claim4_sources_nonempty_bounded
    { research := .ok { text := some "r", groundingChunks := some [{ web := none }] }
      synthesis := .ok { text := some "x", groundingChunks := none }
      parse := fun _ =>
        .ok { title := none, description := none, jsonPrompt := none, exampleJson := none,
              tsInterface := none, jsonSchema := none, promptVariations := none } }
    { title := none, description := none, jsonPrompt := none, exampleJson := none,
      tsInterface := none, jsonSchema := none, promptVariations := none,
      sources := [{ title := "General Industry Documentation", uri := "#" }] }
    (by rfl)

/-- Claim C5: whenever the research call, the synthesis call, or the JSON
parse of the sanitized synthesis text fails, the synthesizer returns
exactly one error whose message is the original message when truthy and
the generic fallback otherwise, and no artifact value is returned. -/
theorem claim5_single_error_policy (env : SynthEnv) (e : JsError) :
    (env.research = .error e → discoverJsonPrompts env = .error (remapError e)) ∧
    (∀ sr, env.research = .ok sr → env.synthesis = .error e →
      discoverJsonPrompts env = .error (remapError e)) ∧
    (∀ sr fr, env.research = .ok sr → env.synthesis = .ok fr →
      env.parse (cleanJsonResponse (jsOrStr fr.text "\x7b\x7d")) = .error e →
      discoverJsonPrompts env = .error (remapError e)) ∧
    (remapError e).message = (if e.message = "" then synthesisFallbackMsg else e.message) := by
  refine ⟨?_, ?_, ?_, rfl⟩
  · intro hr
    unfold discoverJsonPrompts
    rw [hr]
  · intro sr hr hsy
    unfold discoverJsonPrompts
    rw [hr, hsy]
  · intro sr fr hr hsy hp
    unfold discoverJsonPrompts
    rw [hr, hsy]
    dsimp only
    rw [hp]

/-- Claim C5 witness: a research failure with a falsy message surfaces as
the single generic fallback error. -/
theorem claim5_witness :
    discoverJsonPrompts
      { research := .error { message := "" }
        synthesis := .ok { text := some "x", groundingChunks := none }
        parse := fun _ => .error { message := "nope" } } =
      .error { message := synthesisFallbackMsg } :=
  (claim5_single_error_policy
    { research := .error { message := "" }
      synthesis := .ok { text := some "x", groundingChunks := none }
      parse := fun _ => .error { message := "nope" } }
    { message := "" }).1 rfl

/-- Claim C6: two sequential sends through the chat widget append exactly
four turns, in order user, assistant, user, assistant, and each assistant
turn ends with the concatenation of the stream fragments of its send in
arrival order. -/
theorem claim6_two_sends (msgs : List ChatMessage) (in1 in2 u1 a1 u2 a2 : String)
    (ch1 ch2 : List (Option String)) (h1 : jsTrim in1 ≠ "") (h2 : jsTrim in2 ≠ "") :
    handleSend (handleSend msgs false in1 u1 a1 ch1) false in2 u2 a2 ch2 =
      msgs ++ [{ id := u1, role := .user, text := jsTrim in1 },
               { id := a1, role := .model, text := concatChunks ch1 },
               { id := u2, role := .user, text := jsTrim in2 },
               { id := a2, role := .model, text := concatChunks ch2 }] := by
  have key : ∀ (ms : List ChatMessage) (inp u a : String) (ch : List (Option String)),
      jsTrim inp ≠ "" →
      handleSend ms false inp u a ch =
        ms ++ [{ id := u, role := .user, text := jsTrim inp },
               { id := a, role := .model, text := concatChunks ch }] := by
    intro ms inp u a ch hne
    unfold handleSend
    rw [if_neg (by simp [hne])]
    refine (streamFold_concat _ { id := a, role := ChatRole.model, text := "" } "" ch rfl).trans ?_
    simp [List.append_assoc]
  rw [key msgs in1 u1 a1 ch1 h1, key _ in2 u2 a2 ch2 h2]
  simp [List.append_assoc]

/-- Claim C6 witness: two concrete sends, the first stream arriving in two
fragments and the second in three with an undefined chunk text read as the
empty string. -/
theorem claim6_witness :
    handleSend (handleSend [] false "hi " "1" "2" [some "He", some "llo"])
        false " more" "3" "4" [some "a", none, some "b"] =
      [{ id := "1", role := .user, text := "hi" },
       { id := "2", role := .model, text := "Hello" },
       { id := "3", role := .user, text := "more" },
       { id := "4", role := .model, text := "ab" }] := by
  rw [claim6_two_sends [] "hi " " more" "1" "2" "3" "4" [some "He", some "llo"]
    [some "a", none, some "b"] (by decide) (by decide)]
  rfl

/-- Claim C7 counterexample: a derivation whose remote text trims to the
empty string is a successful derive call, yet the following validation
falls back to the original artifact schema instead of the derived one. -/
theorem claim7_counterexample :
    deriveSchemaFromExample (some "example") (some " ") = some (some "") ∧
      validateAgainstSchema (some "") (some "SCHEMA") (some "example") =
        some { schema := "SCHEMA", json := "example" } ∧
      jsTrim " " ≠ "SCHEMA" := by
  refine ⟨by decide, by decide, by decide⟩

/-- Claim C7 amended: after a successful derive call whose trimmed result
is truthy, every validation request that is issued carries the derived
trimmed schema, taking precedence over any schema of the artifact. -/
theorem claim7_derived_schema_wins (exampleJson respText d jsonSchema : Option String)
    (req : ValidationCall)
    (hder : deriveSchemaFromExample exampleJson respText = some d)
    (htr : jsTruthyOpt d = true)
    (hval : validateAgainstSchema d jsonSchema exampleJson = some req) :
    some req.schema = d ∧ d = respText.map jsTrim := by
  have hd : d = respText.map jsTrim := by
    unfold deriveSchemaFromExample at hder
    by_cases hex : jsTruthyOpt exampleJson = true
    · simp [hex] at hder
      exact hder.symm
    · simp [Bool.not_eq_true] at hex
      simp [hex] at hder
  refine ⟨?_, hd⟩
  cases d with
  | none => simp [jsTruthyOpt] at htr
  | some sd =>
    unfold validateAgainstSchema at hval
    simp only [htr, if_true] at hval
    by_cases hex2 : jsTruthyOpt exampleJson = true
    · simp [hex2] at hval
      rw [← hval]
    · simp [Bool.not_eq_true] at hex2
      simp [hex2] at hval

/-- Claim C7 witness: the amended precedence applied to a concrete derive
with surrounding whitespace and an artifact that has its own schema. -/
theorem claim7_witness :
    (some (ValidationCall.schema { schema := "S", json := "E" }) : Option String) = some "S" ∧
      (some "S" : Option String) = (some " S ").map jsTrim :=
  claim7_derived_schema_wins (some "E") (some " S ") (some "S") (some "ORIG")
    { schema := "S", json := "E" } (by decide) (by decide) (by decide)

/-- Claim C8: a fetch whose parsed reply has a missing or empty history or
a non numeric current price is rejected by the validation gate; no
snapshot is stored from it and the previous snapshot, if any, is kept. -/
theorem claim8_invalid_parse_rejected
    (parseJson : String → Except (Option String) ParsedMarket)
    (st : PollState) (f : PendingFetch) (text sourceUrl : Option String)
    (m : List Char) (p : ParsedMarket)
    (hext : pollerExtract (text.getD "").toList = some m)
    (hparse : parseJson (String.mk m) = .ok p)
    (hbad : rejectedParsed p = true) :
    (resolveFetch parseJson st f (.success text sourceUrl)).data = st.data := by
  unfold resolveFetch
  dsimp only
  rw [hext]
  dsimp only
  rw [hparse]
  dsimp only
  rw [if_pos hbad, finalizeFetch_data, onFetchError_data]

/-- Claim C8 witness: an initial fetch whose reply parses to a current
price of ten and an empty history populates no snapshot. -/
theorem claim8_witness :
    (resolveFetch
      (fun _ => .ok { currentPrice := .num 10, changePercent := .other, history := some [] })
      (mountPoller "TSLA").1 (mountPoller "TSLA").2
      (.success (some "\x7b\"currentPrice\": 10, \"history\": []\x7d") none)).data = none := by
  rw [claim8_invalid_parse_rejected
    (fun _ => .ok { currentPrice := .num 10, changePercent := .other, history := some [] })
    (mountPoller "TSLA").1 (mountPoller "TSLA").2
    (some "\x7b\"currentPrice\": 10, \"history\": []\x7d") none
    ("\x7b\"currentPrice\": 10, \"history\": []\x7d".toList)
    { currentPrice := .num 10, changePercent := .other, history := some [] }
    (by decide) (by rfl) (by rfl)]
  rfl

/-- Claim C1: the claim states that after a subject change a late arriving
result for the superseded subject is discarded and never overwrites the
new subject data. The embedded `resolveFetch` stores whatever parsed
reply settles, with no comparison of the fetch symbol against the active
symbol, so the claim fails on the code: in the trace below the old
subject refresh resolves after the new subject data is visible and
overwrites it. The specification names this discard the mandatory race
freedom guarantee, so the code, not the claim, is in error; this theorem
evaluates the embedding on the failing interleaving. -/
theorem claim1_stale_fetch_overwrites :
    (let oracle : String → Except (Option String) ParsedMarket := fun s =>
       if s = "\x7bAAPL\x7d" then
         .ok { currentPrice := .num 101, changePercent := .num 1,
               history := some [{ date := "Mon", price := 100 }] }
       else if s = "\x7bGOOG\x7d" then
         .ok { currentPrice := .num 202, changePercent := .num 2,
               history := some [{ date := "Mon", price := 200 }] }
       else .error none
     let p0 := mountPoller "AAPL"
     let s2 := resolveFetch oracle p0.1 p0.2 (.success (some "\x7bAAPL\x7d") none)
     let p3 := intervalTick s2
     let c := changeSubject p3.1 "GOOG"
     let s5 := resolveFetch oracle c.1 (c.2.getD { symbol := "", isInitial := true })
       (.success (some "\x7bGOOG\x7d") none)
     let s6 := resolveFetch oracle s5 p3.2 (.success (some "\x7bAAPL\x7d") none)
     s6.activeSymbol = "GOOG" ∧
       p3.2.symbol = "AAPL" ∧
       s5.data = some { currentPrice := JsVal.num 202, changePercent := JsVal.num 2,
                        history := some [{ date := "Mon", price := 200 }],
                        sourceUrl := none } ∧
       s6.data = some { currentPrice := JsVal.num 101, changePercent := JsVal.num 1,
                        history := some [{ date := "Mon", price := 100 }],
                        sourceUrl := none }) := by
  decide
